import Mathlib

/-!
Verification development for the LimeTrace segment consolidation engine.

The definitions below are a shallow embedding of the Rust sources:
* `src/crates/limetrace-backend/src/recorder.rs` (Recorder state machine)
* `src/crates/limetrace-backend/src/db.rs` (Database storage layer)
* `src/crates/limetrace-backend/src/monitor.rs` (sample data types only)

Machine integers are modelled as `Int`/`Nat`; `i64::saturating_sub` is
modelled explicitly by clamping into the i64 range.  SQLite tables are
modelled as lists of rows; the in-process `HashMap` caches are modelled as
association lists.  Storage I/O errors are environmental and cannot occur
in the pure model, so operations that return `Result<T>` in Rust and can
only fail on I/O are modelled as total functions.
-/

namespace LimeTrace

/-- i64::MIN as an integer. -/
def minI64 : Int := -9223372036854775808

/-- i64::MAX as an integer. -/
def maxI64 : Int := 9223372036854775807

/-- Rust `i64::saturating_sub` on values in i64 range: the mathematical
difference clamped into `[i64::MIN, i64::MAX]`. -/
def i64SatSub (a b : Int) : Int := max (min (a - b) maxI64) minI64

/-- Source `monitor.rs` `ActiveWindow`: identity of the foreground process/window. -/
structure ActiveWindow where
  pid : Nat
  pid_create_time : Option Nat
  exe_name : String
  process_path : String
  window_title : String
deriving DecidableEq

/-- Source `monitor.rs` `ActivityKind`: idle tick count or foreground identity. -/
inductive ActivityKind where
  | idle (idle_ms : Nat)
  | active (w : ActiveWindow)
deriving DecidableEq

/-- Source `monitor.rs` `ActivitySample`: a timestamp plus the activity variant. -/
structure ActivitySample where
  ts : Int
  kind : ActivityKind
deriving DecidableEq

/-- Source `recorder.rs` `SegmentKey`: grouping identity of consecutive samples. -/
structure SegmentKey where
  app_id : Option Int
  title_id : Option Int
  is_idle : Bool
  pid : Option Nat
  pid_create_time : Option Nat
deriving DecidableEq

/-- Source `recorder.rs` `OpenSegment`: the single in-memory segment. -/
structure OpenSegment where
  start_ts : Int
  end_ts : Int
  key : SegmentKey
deriving DecidableEq

/-- Source `db.rs` `SegmentInsert`, which is also the shape of a persisted
`segments` row (the surrogate `id` column is never read back by this core
and is omitted). -/
structure SegmentRow where
  start_ts : Int
  end_ts : Int
  app_id : Option Int
  title_id : Option Int
  is_idle : Bool
  pid : Option Nat
  pid_create_time : Option Nat
deriving DecidableEq

/-- A row of the `apps` dimension table. -/
structure AppRow where
  id : Int
  exe_name : String
  process_path : String
deriving DecidableEq

/-- A row of the `titles` dimension table. -/
structure TitleRow where
  id : Int
  title : String
deriving DecidableEq

/-- Source `db.rs` `Database`: the three tables plus the two in-process caches. -/
structure Database where
  segments : List SegmentRow
  apps : List AppRow
  titles : List TitleRow
  app_cache : List ((String × String) × Int)
  title_cache : List (String × Int)
deriving DecidableEq

/-- A database with empty tables and caches (freshly created schema). -/
def emptyDb : Database := ⟨[], [], [], [], []⟩

/-- Cache lookup for `app_cache` (models `HashMap::get` on the pair key). -/
def lookupAppCache (cache : List ((String × String) × Int)) (exe path : String) :
    Option Int :=
  match cache with
  | [] => none
  | (k, v) :: rest =>
      if k.1 = exe ∧ k.2 = path then some v else lookupAppCache rest exe path

/-- Cache lookup for `title_cache` (models `HashMap::get`). -/
def lookupTitleCache (cache : List (String × Int)) (title : String) : Option Int :=
  match cache with
  | [] => none
  | (k, v) :: rest => if k = title then some v else lookupTitleCache rest title

/-- Query `SELECT id FROM apps WHERE exe_name = ? AND process_path = ?`
(the pair is UNIQUE, so the first match is the row). -/
def findApp (apps : List AppRow) (exe path : String) : Option AppRow :=
  match apps with
  | [] => none
  | r :: rest =>
      if r.exe_name = exe ∧ r.process_path = path then some r
      else findApp rest exe path

/-- Query `SELECT id FROM titles WHERE title = ?`. -/
def findTitle (titles : List TitleRow) (title : String) : Option TitleRow :=
  match titles with
  | [] => none
  | r :: rest => if r.title = title then some r else findTitle rest title

/-- SQLite `INTEGER PRIMARY KEY` id assignment: one more than the largest
rowid in the table (1 on an empty table). -/
def nextId (ids : List Int) : Int := ids.foldr max 0 + 1

/-- Source `db.rs` `Database::upsert_app`: cache hit short-circuits; otherwise
`INSERT ... ON CONFLICT DO NOTHING` followed by a read-back of the id,
which is then cached.  The read-back cannot miss because the insert just
ensured the row exists; the `none` fallback is unreachable. -/
def upsertApp (db : Database) (exe path : String) : Int × Database :=
  match lookupAppCache db.app_cache exe path with
  | some id => (id, db)
  | none =>
      let apps1 :=
        match findApp db.apps exe path with
        | some _ => db.apps
        | none => db.apps ++ [⟨nextId (db.apps.map (·.id)), exe, path⟩]
      let app_id :=
        match findApp apps1 exe path with
        | some r => r.id
        | none => 0
      (app_id,
        { db with
            apps := apps1
            app_cache := ((exe, path), app_id) :: db.app_cache })

/-- Source `db.rs` `Database::upsert_title`: same pattern keyed on the title. -/
def upsertTitle (db : Database) (title : String) : Int × Database :=
  match lookupTitleCache db.title_cache title with
  | some id => (id, db)
  | none =>
      let titles1 :=
        match findTitle db.titles title with
        | some _ => db.titles
        | none => db.titles ++ [⟨nextId (db.titles.map (·.id)), title⟩]
      let title_id :=
        match findTitle titles1 title with
        | some r => r.id
        | none => 0
      (title_id,
        { db with
            titles := titles1
            title_cache := (title, title_id) :: db.title_cache })

/-- List-level effect of `db.rs` `Database::insert_segment`: rows with
`end_ts <= start_ts` are silently dropped, others are appended. -/
def insertRow (segs : List SegmentRow) (s : SegmentRow) : List SegmentRow :=
  if s.end_ts ≤ s.start_ts then segs else segs ++ [s]

/-- Source `db.rs` `Database::insert_segment`. -/
def insertSegment (db : Database) (s : SegmentRow) : Database :=
  { db with segments := insertRow db.segments s }

/-- List-level effect of `db.rs` `Database::truncate_active_segments_from`:
first the `DELETE FROM segments WHERE is_idle = 0 AND start_ts >= cutoff` ,
then the `UPDATE segments SET end_ts = cutoff
WHERE is_idle = 0 AND start_ts < cutoff AND end_ts > cutoff`,
executed in this order inside one transaction. -/
def truncRows (segs : List SegmentRow) (cutoff : Int) : List SegmentRow :=
  (segs.filter fun r => !(decide (r.is_idle = false ∧ cutoff ≤ r.start_ts))).map
    fun r =>
      if r.is_idle = false ∧ r.start_ts < cutoff ∧ cutoff < r.end_ts then
        { r with end_ts := cutoff }
      else r

/-- Source `db.rs` `Database::truncate_active_segments_from`. -/
def truncateActiveSegmentsFrom (db : Database) (cutoff : Int) : Database :=
  { db with segments := truncRows db.segments cutoff }

/-- Source `recorder.rs` `Recorder`. -/
structure Recorder where
  db : Database
  current : Option OpenSegment
  rotate_every_secs : Int
deriving DecidableEq

/-- Source `recorder.rs` `Recorder::idle_key`. -/
def idleKey : SegmentKey := ⟨none, none, true, none, none⟩

/-- Source `recorder.rs` `Recorder::build_key` for an `Active` sample: upsert the
app identity, upsert the title if non-empty, and build the key. -/
def buildKey (db : Database) (w : ActiveWindow) : SegmentKey × Database :=
  let a := upsertApp db w.exe_name w.process_path
  let t :=
    if w.window_title = "" then ((none : Option Int), a.2)
    else
      let u := upsertTitle a.2 w.window_title
      (some u.1, u.2)
  (⟨some a.1, t.1, false, some w.pid, w.pid_create_time⟩, t.2)

/-- Source `recorder.rs` `Recorder::flush_segment` row construction. -/
def segmentRowOf (seg : OpenSegment) : SegmentRow :=
  ⟨seg.start_ts, seg.end_ts, seg.key.app_id, seg.key.title_id,
    seg.key.is_idle, seg.key.pid, seg.key.pid_create_time⟩

/-- Source `recorder.rs` `Recorder::flush_segment`. -/
def flushSegment (db : Database) (seg : OpenSegment) : Database :=
  insertSegment db (segmentRowOf seg)

/-- Steps 3-4 of `recorder.rs` `Recorder::ingest`, after classification and
the optional retroactive truncation: extend/rotate on key equality,
otherwise clamp the active tail on an active-to-idle transition, flush the
previous segment, and open a new one. -/
def ingestCore (rec : Recorder) (sample_ts : Int) (key : SegmentKey)
    (segment_start_ts : Int) : Recorder :=
  match rec.current with
  | some current =>
      if current.key = key then
        let current1 := { current with end_ts := sample_ts }
        if rec.rotate_every_secs > 0 ∧
            rec.rotate_every_secs ≤ i64SatSub current1.end_ts current1.start_ts then
          { rec with
              db := flushSegment rec.db current1
              current := some ⟨sample_ts, sample_ts, key⟩ }
        else
          { rec with current := some current1 }
      else
        let previous :=
          if key.is_idle = true ∧ current.key.is_idle = false then
            { current with end_ts := min current.end_ts segment_start_ts }
          else current
        { rec with
            db := flushSegment rec.db previous
            current := some ⟨segment_start_ts, sample_ts, key⟩ }
  | none => { rec with current := some ⟨segment_start_ts, sample_ts, key⟩ }

/-- Source `recorder.rs` `Recorder::ingest`: classify the sample; for `Idle`
reconstruct when idleness began (`ts.saturating_sub(idle_ms / 1000)`) and
retroactively truncate flushed active rows from that cutoff; then run the
segment bookkeeping of `ingestCore`. -/
def ingest (rec : Recorder) (sample : ActivitySample) : Recorder :=
  match sample.kind with
  | .idle idle_ms =>
      let idle_secs : Int := ((idle_ms / 1000 : Nat) : Int)
      let idle_start := i64SatSub sample.ts idle_secs
      ingestCore
        ⟨truncateActiveSegmentsFrom rec.db idle_start, rec.current,
          rec.rotate_every_secs⟩
        sample.ts idleKey idle_start
  | .active w =>
      ingestCore
        ⟨(buildKey rec.db w).2, rec.current, rec.rotate_every_secs⟩
        sample.ts (buildKey rec.db w).1 sample.ts

/-- Source `recorder.rs` `Recorder::flush_and_close`. -/
def flushAndClose (rec : Recorder) (now_ts : Int) : Recorder :=
  match rec.current with
  | some current =>
      let current1 :=
        if now_ts > current.end_ts then { current with end_ts := now_ts }
        else current
      { rec with db := flushSegment rec.db current1, current := none }
  | none => rec

/-- Folding `ingest` over a sample stream. -/
def ingestAll (rec : Recorder) (samples : List ActivitySample) : Recorder :=
  samples.foldl ingest rec

/-! ### Spec-side definition for the truncation claim

`truncSpecRows` is written from the specification's words for
`truncate_active_segments_from` (claim C2): per row, delete it when it is
active with `start_ts >= cutoff`, shorten it to `end_ts = cutoff` when it
is active and straddles the cutoff, and keep every other row unchanged. -/

/-- Per-row description of retroactive truncation, following the spec text
rather than the two SQL statements. -/
def truncSpecRows (segs : List SegmentRow) (cutoff : Int) : List SegmentRow :=
  segs.filterMap fun r =>
    if r.is_idle = false ∧ cutoff ≤ r.start_ts then none
    else if r.is_idle = false ∧ r.start_ts < cutoff ∧ cutoff < r.end_ts then
      some { r with end_ts := cutoff }
    else some r

/-! ### Basic lemmas about the storage operations -/

theorem truncRows_eq_spec (segs : List SegmentRow) (cutoff : Int) :
    truncRows segs cutoff = truncSpecRows segs cutoff := by
  induction segs with
  | nil => rfl
  | cons r rest ih =>
      cases hidle : r.is_idle with
      | true => simpa [truncRows, truncSpecRows, hidle] using ih
      | false =>
          by_cases hs : cutoff ≤ r.start_ts
          · simpa [truncRows, truncSpecRows, hidle, hs] using ih
          · have hlt : r.start_ts < cutoff := by omega
            by_cases he : cutoff < r.end_ts
            · simpa [truncRows, truncSpecRows, hidle, hs, hlt, he] using ih
            · simpa [truncRows, truncSpecRows, hidle, hs, hlt, he] using ih

theorem mem_insertRow {segs : List SegmentRow} {s r : SegmentRow}
    (h : r ∈ insertRow segs s) :
    r ∈ segs ∨ (r = s ∧ s.start_ts < s.end_ts) := by
  unfold insertRow at h
  split at h
  · exact Or.inl h
  · rcases List.mem_append.1 h with h' | h'
    · exact Or.inl h'
    · rcases List.mem_singleton.1 h' with rfl
      exact Or.inr ⟨rfl, by omega⟩

theorem mem_truncRows {segs : List SegmentRow} {cutoff : Int} {r : SegmentRow}
    (h : r ∈ truncRows segs cutoff) :
    ∃ r₀ ∈ segs, ¬(r₀.is_idle = false ∧ cutoff ≤ r₀.start_ts) ∧
      ((r₀.is_idle = false ∧ r₀.start_ts < cutoff ∧ cutoff < r₀.end_ts ∧
          r = { r₀ with end_ts := cutoff }) ∨
        (¬(r₀.is_idle = false ∧ r₀.start_ts < cutoff ∧ cutoff < r₀.end_ts) ∧
          r = r₀)) := by
  unfold truncRows at h
  rcases List.mem_map.1 h with ⟨r₀, hr₀, hmap⟩
  rcases List.mem_filter.1 hr₀ with ⟨hmem, hkeep⟩
  refine ⟨r₀, hmem, ?_, ?_⟩
  · intro hcontra
    simp [hcontra] at hkeep
  · by_cases h2 : r₀.is_idle = false ∧ r₀.start_ts < cutoff ∧ cutoff < r₀.end_ts
    · exact Or.inl ⟨h2.1, h2.2.1, h2.2.2, by rw [← hmap, if_pos h2]⟩
    · exact Or.inr ⟨h2, by rw [← hmap, if_neg h2]⟩

theorem upsertApp_segments (db : Database) (exe path : String) :
    ((upsertApp db exe path).2).segments = db.segments := by
  unfold upsertApp
  split <;> rfl

theorem upsertTitle_segments (db : Database) (title : String) :
    ((upsertTitle db title).2).segments = db.segments := by
  unfold upsertTitle
  split <;> rfl

theorem buildKey_segments (db : Database) (w : ActiveWindow) :
    ((buildKey db w).2).segments = db.segments := by
  unfold buildKey
  by_cases ht : w.window_title = ""
  · simp [ht, upsertApp_segments]
  · simp [ht, upsertTitle_segments, upsertApp_segments]

/-! ### Claim theorems: storage layer -/

/-- C2: `truncate_active_segments_from(cutoff_ts)` (delete-then-trim inside
one transaction, in that order) deletes exactly the active rows with
`start_ts >= cutoff_ts`, sets `end_ts = cutoff_ts` on exactly the active
rows with `start_ts < cutoff_ts < end_ts`, and leaves every other row (in
particular every idle row) unchanged: the composed effect equals the
per-row specification `truncSpecRows`, and no other database component is
touched. -/
theorem truncate_matches_spec (db : Database) (cutoff : Int) :
    truncateActiveSegmentsFrom db cutoff =
      { db with segments := truncSpecRows db.segments cutoff } := by
  unfold truncateActiveSegmentsFrom
  rw [truncRows_eq_spec]

/-- C7: `insert_segment` on a row with `end_ts <= start_ts` succeeds as a
no-op: the whole database (hence the segments table, its row count and
every existing row) is unchanged, and no such row is ever persisted. -/
theorem insert_segment_zero_duration_noop (db : Database) (s : SegmentRow)
    (h : s.end_ts ≤ s.start_ts) : insertSegment db s = db := by
  simp [insertSegment, insertRow, h]

/-- Witness for C7 at a concrete zero-duration row. -/
theorem insert_segment_zero_duration_noop_witness :
    insertSegment emptyDb ⟨5, 5, none, none, false, none, none⟩ = emptyDb :=
  insert_segment_zero_duration_noop emptyDb ⟨5, 5, none, none, false, none, none⟩
    (by decide)

/-- C9: every mutation of the `segments` table preserves the strict
invariant `start_ts < end_ts`: `insert_segment` drops rows with
`end_ts <= start_ts`, the trim step of `truncate_active_segments_from`
sets `end_ts = cutoff_ts` only on rows with `start_ts < cutoff_ts`, and
the dimension upserts never touch the segments table at all. -/
theorem positive_duration_preserved (segs : List SegmentRow) (s : SegmentRow)
    (cutoff : Int) (db : Database) (e p t : String)
    (h : ∀ r ∈ segs, r.start_ts < r.end_ts) :
    (∀ r ∈ insertRow segs s, r.start_ts < r.end_ts) ∧
    (∀ r ∈ truncRows segs cutoff, r.start_ts < r.end_ts) ∧
    ((upsertApp db e p).2).segments = db.segments ∧
    ((upsertTitle db t).2).segments = db.segments := by
  refine ⟨?_, ?_, upsertApp_segments db e p, upsertTitle_segments db t⟩
  · intro r hr
    rcases mem_insertRow hr with hr' | ⟨rfl, hs⟩
    · exact h r hr'
    · exact hs
  · intro r hr
    rcases mem_truncRows hr with ⟨r₀, hmem, _, htrim | ⟨_, rfl⟩⟩
    · rcases htrim with ⟨_, hlt, _, rfl⟩
      simpa using hlt
    · exact h _ hmem

/-- Witness for C9 at a concrete table. -/
theorem positive_duration_preserved_witness :
    (∀ r ∈ insertRow [(⟨1, 2, none, none, true, none, none⟩ : SegmentRow)]
        ⟨4, 3, none, none, false, none, none⟩, r.start_ts < r.end_ts) ∧
    (∀ r ∈ truncRows [(⟨1, 2, none, none, true, none, none⟩ : SegmentRow)] 0,
        r.start_ts < r.end_ts) ∧
    ((upsertApp emptyDb "a" "b").2).segments = emptyDb.segments ∧
    ((upsertTitle emptyDb "t").2).segments = emptyDb.segments :=
  positive_duration_preserved [⟨1, 2, none, none, true, none, none⟩]
    ⟨4, 3, none, none, false, none, none⟩ 0 emptyDb "a" "b" "t" (by decide)

/-! ### Claim theorems: flush_and_close -/

/-- C6: if an open segment exists, `flush_and_close(now_ts)` extends its
`end_ts` to `max(end_ts, now_ts)`, flushes it, and clears `current`; a
second consecutive call is a complete no-op (inserts no row, changes no
state, and — being infallible in the model — returns Ok). -/
theorem flush_and_close_extends_and_idempotent (rec : Recorder)
    (now now2 : Int) :
    (∀ c, rec.current = some c →
      flushAndClose rec now =
        ⟨flushSegment rec.db ⟨c.start_ts, max c.end_ts now, c.key⟩, none,
          rec.rotate_every_secs⟩) ∧
    flushAndClose (flushAndClose rec now) now2 = flushAndClose rec now := by
  constructor
  · intro c hc
    cases rec with
    | mk db cur rot =>
        cases cur with
        | none => simp at hc
        | some c' =>
            cases hc
            by_cases hn : now > c.end_ts
            · simp [flushAndClose, hn, max_eq_right (le_of_lt hn)]
            · simp [flushAndClose, hn, max_eq_left (not_lt.1 hn)]
  · cases rec with
    | mk db cur rot =>
        cases cur with
        | none => rfl
        | some c' => rfl

/-- Witness for C6 at a concrete recorder with an open segment. -/
theorem flush_and_close_witness :
    flushAndClose ⟨emptyDb, some ⟨1, 2, idleKey⟩, 0⟩ 9 =
      ⟨flushSegment emptyDb ⟨1, max 2 9, idleKey⟩, none, 0⟩ :=
  (flush_and_close_extends_and_idempotent ⟨emptyDb, some ⟨1, 2, idleKey⟩, 0⟩ 9 9).1
    ⟨1, 2, idleKey⟩ rfl

/-! ### Lemmas about the dimension upserts -/

theorem findApp_append {apps : List AppRow} (l2 : List AppRow)
    {exe path : String} (h : findApp apps exe path = none) :
    findApp (apps ++ l2) exe path = findApp l2 exe path := by
  induction apps with
  | nil => rfl
  | cons r rest ih =>
      simp only [findApp, List.cons_append] at h ⊢
      split at h
      · simp at h
      · next hcond => rw [if_neg hcond]; exact ih h

theorem upsertApp_apps (db : Database) (exe path : String) :
    ((upsertApp db exe path).2).apps = db.apps ∨
      ∃ a, ((upsertApp db exe path).2).apps = db.apps ++ [a] := by
  unfold upsertApp
  cases hl : lookupAppCache db.app_cache exe path with
  | some id => exact Or.inl rfl
  | none =>
      cases hf : findApp db.apps exe path with
      | some r => exact Or.inl rfl
      | none => exact Or.inr ⟨_, rfl⟩

theorem upsertApp_titles (db : Database) (exe path : String) :
    ((upsertApp db exe path).2).titles = db.titles := by
  unfold upsertApp
  split <;> rfl

theorem upsertTitle_titles (db : Database) (title : String) :
    ((upsertTitle db title).2).titles = db.titles ∨
      ∃ t, ((upsertTitle db title).2).titles = db.titles ++ [t] := by
  unfold upsertTitle
  cases hl : lookupTitleCache db.title_cache title with
  | some id => exact Or.inl rfl
  | none =>
      cases hf : findTitle db.titles title with
      | some r => exact Or.inl rfl
      | none => exact Or.inr ⟨_, rfl⟩

theorem upsertTitle_apps (db : Database) (title : String) :
    ((upsertTitle db title).2).apps = db.apps := by
  unfold upsertTitle
  split <;> rfl

theorem buildKey_apps (db : Database) (w : ActiveWindow) :
    ((buildKey db w).2).apps = db.apps ∨
      ∃ a, ((buildKey db w).2).apps = db.apps ++ [a] := by
  unfold buildKey
  by_cases ht : w.window_title = ""
  · simpa [ht] using upsertApp_apps db w.exe_name w.process_path
  · simpa [ht, upsertTitle_apps] using upsertApp_apps db w.exe_name w.process_path

theorem buildKey_titles (db : Database) (w : ActiveWindow) :
    ((buildKey db w).2).titles = db.titles ∨
      ∃ t, ((buildKey db w).2).titles = db.titles ++ [t] := by
  by_cases ht : w.window_title = ""
  · exact Or.inl (by simp [buildKey, ht, upsertApp_titles])
  · rcases upsertTitle_titles (upsertApp db w.exe_name w.process_path).2
        w.window_title with h | ⟨t, h⟩
    · refine Or.inl ?_
      simp only [buildKey, if_neg ht]
      rw [h, upsertApp_titles]
    · refine Or.inr ⟨t, ?_⟩
      simp only [buildKey, if_neg ht]
      rw [h, upsertApp_titles]

theorem buildKey_pid_create_time (db : Database) (w : ActiveWindow) :
    ((buildKey db w).1).pid_create_time = w.pid_create_time := rfl

theorem buildKey_is_idle (db : Database) (w : ActiveWindow) :
    ((buildKey db w).1).is_idle = false := rfl

/-- C8: calling `upsert_app` twice with an identical `(exe_name,
process_path)` pair returns the same id both times and creates exactly one
row in the apps table; the second call adds no row and changes no state.
Hypotheses: the pair is not yet present in the apps table nor in the cache
(cache entries are only ever created together with a persisted row). -/
theorem upsert_app_round_trip (db : Database) (exe path : String)
    (hc : lookupAppCache db.app_cache exe path = none)
    (hf : findApp db.apps exe path = none) :
    (upsertApp db exe path).1 = (upsertApp (upsertApp db exe path).2 exe path).1 ∧
    ((upsertApp db exe path).2).apps =
      db.apps ++ [⟨(upsertApp db exe path).1, exe, path⟩] ∧
    (upsertApp (upsertApp db exe path).2 exe path).2 = (upsertApp db exe path).2 := by
  have hstep : upsertApp db exe path =
      (nextId (db.apps.map (·.id)),
        { db with
            apps := db.apps ++ [⟨nextId (db.apps.map (·.id)), exe, path⟩]
            app_cache :=
              ((exe, path), nextId (db.apps.map (·.id))) :: db.app_cache }) := by
    unfold upsertApp
    rw [hc, hf]
    simp only []
    rw [findApp_append _ hf]
    simp [findApp]
  have hstep2 : upsertApp (upsertApp db exe path).2 exe path =
      ((upsertApp db exe path).1, (upsertApp db exe path).2) := by
    rw [hstep]
    unfold upsertApp
    simp [lookupAppCache]
  refine ⟨?_, ?_, ?_⟩
  · rw [hstep2]
  · rw [hstep]
  · rw [hstep2]

/-- Witness for C8 on an empty database. -/
theorem upsert_app_round_trip_witness :
    (upsertApp emptyDb "a.exe" "/a").1 =
      (upsertApp (upsertApp emptyDb "a.exe" "/a").2 "a.exe" "/a").1 ∧
    ((upsertApp emptyDb "a.exe" "/a").2).apps =
      emptyDb.apps ++ [⟨(upsertApp emptyDb "a.exe" "/a").1, "a.exe", "/a"⟩] ∧
    (upsertApp (upsertApp emptyDb "a.exe" "/a").2 "a.exe" "/a").2 =
      (upsertApp emptyDb "a.exe" "/a").2 :=
  upsert_app_round_trip emptyDb "a.exe" "/a" rfl rfl

/-! ### Characterizations of the ingest branches -/

theorem ingestCore_none {rec : Recorder} (ts : Int) (key : SegmentKey)
    (st : Int) (h : rec.current = none) :
    ingestCore rec ts key st = { rec with current := some ⟨st, ts, key⟩ } := by
  unfold ingestCore
  rw [h]

theorem ingestCore_same_noRotate {rec : Recorder} {c : OpenSegment}
    (ts : Int) (key : SegmentKey) (st : Int)
    (hc : rec.current = some c) (hk : c.key = key)
    (hr : ¬(rec.rotate_every_secs > 0 ∧
      rec.rotate_every_secs ≤ i64SatSub ts c.start_ts)) :
    ingestCore rec ts key st =
      { rec with current := some ⟨c.start_ts, ts, c.key⟩ } := by
  unfold ingestCore
  rw [hc]
  simp [hk, hr]

theorem ingestCore_same_rotate {rec : Recorder} {c : OpenSegment}
    (ts : Int) (key : SegmentKey) (st : Int)
    (hc : rec.current = some c) (hk : c.key = key)
    (hr : rec.rotate_every_secs > 0 ∧
      rec.rotate_every_secs ≤ i64SatSub ts c.start_ts) :
    ingestCore rec ts key st =
      { rec with
          db := flushSegment rec.db ⟨c.start_ts, ts, c.key⟩
          current := some ⟨ts, ts, key⟩ } := by
  unfold ingestCore
  rw [hc]
  simp [hk, hr]

theorem ingestCore_diff {rec : Recorder} {c : OpenSegment}
    (ts : Int) (key : SegmentKey) (st : Int)
    (hc : rec.current = some c) (hk : ¬(c.key = key)) :
    ingestCore rec ts key st =
      { rec with
          db := flushSegment rec.db
            (if key.is_idle = true ∧ c.key.is_idle = false then
              ⟨c.start_ts, min c.end_ts st, c.key⟩
            else c)
          current := some ⟨st, ts, key⟩ } := by
  unfold ingestCore
  rw [hc]
  simp only [if_neg hk]

theorem ingest_active_eq (rec : Recorder) (w : ActiveWindow) (ts : Int) :
    ingest rec ⟨ts, .active w⟩ =
      ingestCore ⟨(buildKey rec.db w).2, rec.current, rec.rotate_every_secs⟩
        ts (buildKey rec.db w).1 ts := rfl

theorem ingest_idle_eq (rec : Recorder) (idle_ms : Nat) (ts : Int) :
    ingest rec ⟨ts, .idle idle_ms⟩ =
      ingestCore
        ⟨truncateActiveSegmentsFrom rec.db
            (i64SatSub ts ((idle_ms / 1000 : Nat) : Int)),
          rec.current, rec.rotate_every_secs⟩
        ts idleKey (i64SatSub ts ((idle_ms / 1000 : Nat) : Int)) := rfl

/-- Ingesting an `Active` sample always leaves an open segment whose key
is the key built for that sample. -/
theorem ingest_active_current (rec : Recorder) (w : ActiveWindow) (ts : Int) :
    ∃ c, (ingest rec ⟨ts, .active w⟩).current = some c ∧
      c.key = (buildKey rec.db w).1 := by
  rw [ingest_active_eq]
  set rec1 : Recorder :=
    ⟨(buildKey rec.db w).2, rec.current, rec.rotate_every_secs⟩ with hrec1
  cases hc : rec.current with
  | none =>
      rw [ingestCore_none _ _ _ (by rw [hrec1]; exact hc)]
      exact ⟨_, rfl, rfl⟩
  | some c =>
      by_cases hk : c.key = (buildKey rec.db w).1
      · by_cases hr : rec1.rotate_every_secs > 0 ∧
            rec1.rotate_every_secs ≤ i64SatSub ts c.start_ts
        · rw [ingestCore_same_rotate _ _ _ (by rw [hrec1]; exact hc) hk hr]
          exact ⟨_, rfl, rfl⟩
        · rw [ingestCore_same_noRotate _ _ _ (by rw [hrec1]; exact hc) hk hr]
          exact ⟨_, rfl, hk⟩
      · rw [ingestCore_diff _ _ _ (by rw [hrec1]; exact hc) hk]
        exact ⟨_, rfl, rfl⟩

/-! ### Claim theorems: pid recycling and the same-key frame property -/

/-- C5: two consecutively ingested `Active` samples with identical `pid`
but different `pid_create_time` are never merged into one segment: their
`SegmentKey`s compare unequal under any database states, and after the
second ingest the recorder holds a fresh segment `[ts2, ts2]` for the
second key while the first segment was flushed (passed to
`insert_segment`, which appends it unless it has zero duration). -/
theorem pid_recycling_not_merged (rec : Recorder) (w1 w2 : ActiveWindow)
    (ts1 ts2 : Int) (_hp : w1.pid = w2.pid)
    (hct : w1.pid_create_time ≠ w2.pid_create_time) :
    (∀ d d' : Database, (buildKey d w1).1 ≠ (buildKey d' w2).1) ∧
    (∃ c1, (ingest rec ⟨ts1, .active w1⟩).current = some c1 ∧
      c1.key.pid_create_time = w1.pid_create_time ∧
      (ingest (ingest rec ⟨ts1, .active w1⟩) ⟨ts2, .active w2⟩).current =
        some ⟨ts2, ts2,
          (buildKey (ingest rec ⟨ts1, .active w1⟩).db w2).1⟩ ∧
      (ingest (ingest rec ⟨ts1, .active w1⟩) ⟨ts2, .active w2⟩).db.segments =
        insertRow (ingest rec ⟨ts1, .active w1⟩).db.segments
          (segmentRowOf c1)) := by
  have hkeys : ∀ d d' : Database, (buildKey d w1).1 ≠ (buildKey d' w2).1 := by
    intro d d' heq
    exact hct (by
      have := congrArg SegmentKey.pid_create_time heq
      rwa [buildKey_pid_create_time, buildKey_pid_create_time] at this)
  refine ⟨hkeys, ?_⟩
  obtain ⟨c1, hc1, hk1⟩ := ingest_active_current rec w1 ts1
  set rec1 := ingest rec ⟨ts1, .active w1⟩ with hrec1
  refine ⟨c1, hc1, by rw [hk1, buildKey_pid_create_time], ?_⟩
  have hne : ¬(c1.key = (buildKey rec1.db w2).1) := by
    rw [hk1]
    exact hkeys _ _
  rw [ingest_active_eq]
  have hc1' :
      (⟨(buildKey rec1.db w2).2, rec1.current, rec1.rotate_every_secs⟩ :
        Recorder).current = some c1 := hc1
  rw [ingestCore_diff ts2 _ ts2 hc1' hne]
  have hnoclamp :
      (if ((buildKey rec1.db w2).1).is_idle = true ∧ c1.key.is_idle = false
        then (⟨c1.start_ts, min c1.end_ts ts2, c1.key⟩ : OpenSegment)
        else c1) = c1 := by
    rw [if_neg]
    rw [buildKey_is_idle]
    simp
  rw [hnoclamp]
  exact ⟨rfl, by simp [flushSegment, insertSegment, buildKey_segments]⟩

/-- Witness for C5 at concrete windows differing only in
`pid_create_time`. -/
theorem pid_recycling_witness :
    (∀ d d' : Database,
      (buildKey d ⟨7, some 3, "a.exe", "/a", "T"⟩).1 ≠
        (buildKey d' ⟨7, some 4, "a.exe", "/a", "T"⟩).1) ∧
    (∃ c1,
      (ingest ⟨emptyDb, none, 0⟩ ⟨10, .active ⟨7, some 3, "a.exe", "/a", "T"⟩⟩).current =
        some c1 ∧
      c1.key.pid_create_time = (⟨7, some 3, "a.exe", "/a", "T"⟩ : ActiveWindow).pid_create_time ∧
      (ingest (ingest ⟨emptyDb, none, 0⟩ ⟨10, .active ⟨7, some 3, "a.exe", "/a", "T"⟩⟩)
          ⟨20, .active ⟨7, some 4, "a.exe", "/a", "T"⟩⟩).current =
        some ⟨20, 20,
          (buildKey
            (ingest ⟨emptyDb, none, 0⟩ ⟨10, .active ⟨7, some 3, "a.exe", "/a", "T"⟩⟩).db
            ⟨7, some 4, "a.exe", "/a", "T"⟩).1⟩ ∧
      (ingest (ingest ⟨emptyDb, none, 0⟩ ⟨10, .active ⟨7, some 3, "a.exe", "/a", "T"⟩⟩)
          ⟨20, .active ⟨7, some 4, "a.exe", "/a", "T"⟩⟩).db.segments =
        insertRow
          (ingest ⟨emptyDb, none, 0⟩ ⟨10, .active ⟨7, some 3, "a.exe", "/a", "T"⟩⟩).db.segments
          (segmentRowOf c1)) :=
  pid_recycling_not_merged ⟨emptyDb, none, 0⟩ ⟨7, some 3, "a.exe", "/a", "T"⟩
    ⟨7, some 4, "a.exe", "/a", "T"⟩ 10 20 rfl (by decide)

/-- C10: ingesting an `Active` sample whose computed key equals the
current open segment's key, when rotation does not trigger, leaves the
segments table completely unchanged (no insert, delete, or trim); the only
recorder-state change is the open segment's `end_ts` moving to the sample
timestamp, and the dimension tables gain at most one upserted app row and
one upserted title row. -/
theorem ingest_same_key_frame (rec : Recorder) (w : ActiveWindow) (ts : Int)
    (c : OpenSegment) (hc : rec.current = some c)
    (hk : (buildKey rec.db w).1 = c.key)
    (hrot : ¬(rec.rotate_every_secs > 0 ∧
      rec.rotate_every_secs ≤ i64SatSub ts c.start_ts)) :
    (ingest rec ⟨ts, .active w⟩).db.segments = rec.db.segments ∧
    (ingest rec ⟨ts, .active w⟩).current = some ⟨c.start_ts, ts, c.key⟩ ∧
    (ingest rec ⟨ts, .active w⟩).rotate_every_secs = rec.rotate_every_secs ∧
    ((ingest rec ⟨ts, .active w⟩).db.apps = rec.db.apps ∨
      ∃ a, (ingest rec ⟨ts, .active w⟩).db.apps = rec.db.apps ++ [a]) ∧
    ((ingest rec ⟨ts, .active w⟩).db.titles = rec.db.titles ∨
      ∃ t, (ingest rec ⟨ts, .active w⟩).db.titles = rec.db.titles ++ [t]) := by
  rw [ingest_active_eq]
  have hc' :
      (⟨(buildKey rec.db w).2, rec.current, rec.rotate_every_secs⟩ :
        Recorder).current = some c := hc
  rw [ingestCore_same_noRotate ts _ ts hc' hk.symm hrot]
  exact ⟨buildKey_segments rec.db w, rfl, rfl, buildKey_apps rec.db w,
    buildKey_titles rec.db w⟩

/-- Witness for C10 at a concrete recorder. -/
theorem ingest_same_key_frame_witness :
    (ingest ⟨(buildKey emptyDb ⟨7, some 3, "a.exe", "/a", "T"⟩).2,
        some ⟨0, 0, (buildKey emptyDb ⟨7, some 3, "a.exe", "/a", "T"⟩).1⟩, 0⟩
      ⟨5, .active ⟨7, some 3, "a.exe", "/a", "T"⟩⟩).db.segments =
      ((buildKey emptyDb ⟨7, some 3, "a.exe", "/a", "T"⟩).2).segments ∧
    (ingest ⟨(buildKey emptyDb ⟨7, some 3, "a.exe", "/a", "T"⟩).2,
        some ⟨0, 0, (buildKey emptyDb ⟨7, some 3, "a.exe", "/a", "T"⟩).1⟩, 0⟩
      ⟨5, .active ⟨7, some 3, "a.exe", "/a", "T"⟩⟩).current =
      some ⟨0, 5, (buildKey emptyDb ⟨7, some 3, "a.exe", "/a", "T"⟩).1⟩ ∧
    (ingest ⟨(buildKey emptyDb ⟨7, some 3, "a.exe", "/a", "T"⟩).2,
        some ⟨0, 0, (buildKey emptyDb ⟨7, some 3, "a.exe", "/a", "T"⟩).1⟩, 0⟩
      ⟨5, .active ⟨7, some 3, "a.exe", "/a", "T"⟩⟩).rotate_every_secs = 0 ∧
    ((ingest ⟨(buildKey emptyDb ⟨7, some 3, "a.exe", "/a", "T"⟩).2,
        some ⟨0, 0, (buildKey emptyDb ⟨7, some 3, "a.exe", "/a", "T"⟩).1⟩, 0⟩
      ⟨5, .active ⟨7, some 3, "a.exe", "/a", "T"⟩⟩).db.apps =
        ((buildKey emptyDb ⟨7, some 3, "a.exe", "/a", "T"⟩).2).apps ∨
      ∃ a, (ingest ⟨(buildKey emptyDb ⟨7, some 3, "a.exe", "/a", "T"⟩).2,
        some ⟨0, 0, (buildKey emptyDb ⟨7, some 3, "a.exe", "/a", "T"⟩).1⟩, 0⟩
      ⟨5, .active ⟨7, some 3, "a.exe", "/a", "T"⟩⟩).db.apps =
        ((buildKey emptyDb ⟨7, some 3, "a.exe", "/a", "T"⟩).2).apps ++ [a]) ∧
    ((ingest ⟨(buildKey emptyDb ⟨7, some 3, "a.exe", "/a", "T"⟩).2,
        some ⟨0, 0, (buildKey emptyDb ⟨7, some 3, "a.exe", "/a", "T"⟩).1⟩, 0⟩
      ⟨5, .active ⟨7, some 3, "a.exe", "/a", "T"⟩⟩).db.titles =
        ((buildKey emptyDb ⟨7, some 3, "a.exe", "/a", "T"⟩).2).titles ∨
      ∃ t, (ingest ⟨(buildKey emptyDb ⟨7, some 3, "a.exe", "/a", "T"⟩).2,
        some ⟨0, 0, (buildKey emptyDb ⟨7, some 3, "a.exe", "/a", "T"⟩).1⟩, 0⟩
      ⟨5, .active ⟨7, some 3, "a.exe", "/a", "T"⟩⟩).db.titles =
        ((buildKey emptyDb ⟨7, some 3, "a.exe", "/a", "T"⟩).2).titles ++ [t]) :=
  ingest_same_key_frame
    ⟨(buildKey emptyDb ⟨7, some 3, "a.exe", "/a", "T"⟩).2,
      some ⟨0, 0, (buildKey emptyDb ⟨7, some 3, "a.exe", "/a", "T"⟩).1⟩, 0⟩
    ⟨7, some 3, "a.exe", "/a", "T"⟩ 5
    ⟨0, 0, (buildKey emptyDb ⟨7, some 3, "a.exe", "/a", "T"⟩).1⟩ rfl
    (by decide) (by decide)

/-! ### Rotation: generic step lemmas and the 25-second run -/

theorem i64SatSub_eq (a b c : Int) (h : a - b = c) (h0 : minI64 ≤ c)
    (h1 : c ≤ maxI64) : i64SatSub a b = c := by
  unfold i64SatSub
  rw [h, min_eq_left h1, max_eq_left h0]

theorem upsertApp_of_cached (db : Database) (e p : String) (id : Int)
    (h : lookupAppCache db.app_cache e p = some id) :
    upsertApp db e p = (id, db) := by
  unfold upsertApp
  rw [h]

theorem upsertTitle_of_cached (db : Database) (t : String) (id : Int)
    (h : lookupTitleCache db.title_cache t = some id) :
    upsertTitle db t = (id, db) := by
  unfold upsertTitle
  rw [h]

theorem upsertApp_stable (db : Database) (e p : String) :
    upsertApp (upsertApp db e p).2 e p =
      ((upsertApp db e p).1, (upsertApp db e p).2) := by
  cases hl : lookupAppCache db.app_cache e p with
  | some id =>
      have h1 : upsertApp db e p = (id, db) := upsertApp_of_cached db e p id hl
      rw [h1]
      simpa using h1
  | none =>
      have hcache : ((upsertApp db e p).2).app_cache =
          ((e, p), (upsertApp db e p).1) :: db.app_cache := by
        unfold upsertApp
        rw [hl]
      exact upsertApp_of_cached _ _ _ _ (by rw [hcache]; simp [lookupAppCache])

theorem upsertTitle_stable (db : Database) (t : String) :
    upsertTitle (upsertTitle db t).2 t =
      ((upsertTitle db t).1, (upsertTitle db t).2) := by
  cases hl : lookupTitleCache db.title_cache t with
  | some id =>
      have h1 : upsertTitle db t = (id, db) := upsertTitle_of_cached db t id hl
      rw [h1]
      simpa using h1
  | none =>
      have hcache : ((upsertTitle db t).2).title_cache =
          (t, (upsertTitle db t).1) :: db.title_cache := by
        unfold upsertTitle
        rw [hl]
      exact upsertTitle_of_cached _ _ _ (by rw [hcache]; simp [lookupTitleCache])

theorem upsertTitle_app_cache (db : Database) (t : String) :
    ((upsertTitle db t).2).app_cache = db.app_cache := by
  unfold upsertTitle
  split <;> rfl

/-- After one `build_key`, building the key again for the same window is a
pure cache hit: the key is identical and the database is unchanged. -/
theorem buildKey_stable (db : Database) (w : ActiveWindow) :
    buildKey (buildKey db w).2 w = ((buildKey db w).1, (buildKey db w).2) := by
  by_cases ht : w.window_title = ""
  · simp only [buildKey, if_pos ht]
    rw [upsertApp_stable]
  · simp only [buildKey, if_neg ht]
    -- the app cache entry survives the title upsert
    have hac :
        lookupAppCache
          ((upsertTitle (upsertApp db w.exe_name w.process_path).2
            w.window_title).2).app_cache w.exe_name w.process_path =
        lookupAppCache
          ((upsertApp db w.exe_name w.process_path).2).app_cache
          w.exe_name w.process_path := by
      rw [upsertTitle_app_cache]
    have hfirst :
        lookupAppCache
          ((upsertApp db w.exe_name w.process_path).2).app_cache
          w.exe_name w.process_path =
        some (upsertApp db w.exe_name w.process_path).1 := by
      unfold upsertApp
      cases hl : lookupAppCache db.app_cache w.exe_name w.process_path with
      | some id => simp [hl]
      | none => simp [lookupAppCache]
    rw [upsertApp_of_cached _ _ _ _ (hac.trans hfirst)]
    simp only []
    rw [upsertTitle_stable]

theorem upsertApp_set_segments (db : Database) (S : List SegmentRow)
    (e p : String) :
    upsertApp { db with segments := S } e p =
      ((upsertApp db e p).1, { (upsertApp db e p).2 with segments := S }) := by
  unfold upsertApp
  cases hl : lookupAppCache db.app_cache e p <;> simp [hl]

theorem upsertTitle_set_segments (db : Database) (S : List SegmentRow)
    (t : String) :
    upsertTitle { db with segments := S } t =
      ((upsertTitle db t).1, { (upsertTitle db t).2 with segments := S }) := by
  unfold upsertTitle
  cases hl : lookupTitleCache db.title_cache t <;> simp [hl]

theorem buildKey_set_segments (db : Database) (S : List SegmentRow)
    (w : ActiveWindow) :
    buildKey { db with segments := S } w =
      ((buildKey db w).1, { (buildKey db w).2 with segments := S }) := by
  by_cases ht : w.window_title = ""
  · unfold buildKey
    rw [upsertApp_set_segments]
    simp [ht]
  · unfold buildKey
    rw [upsertApp_set_segments]
    simp [ht, upsertTitle_set_segments]

/-- Stability of `build_key` is preserved when only the segments table
changes. -/
theorem buildKey_stable_segments (db : Database) (w : ActiveWindow)
    (K : SegmentKey) (S : List SegmentRow) (hst : buildKey db w = (K, db)) :
    buildKey { db with segments := S } w = (K, { db with segments := S }) := by
  rw [buildKey_set_segments, hst]

/-- First `Active` sample with no open segment: open `[ts, ts]`. -/
theorem run_first (db : Database) (w : ActiveWindow) (ts R : Int) :
    ingest ⟨db, none, R⟩ ⟨ts, .active w⟩ =
      ⟨(buildKey db w).2, some ⟨ts, ts, (buildKey db w).1⟩, R⟩ := rfl

/-- Same-key `Active` sample below the rotation threshold: extend only. -/
theorem run_extend (db : Database) (s e : Int) (K : SegmentKey)
    (w : ActiveWindow) (ts : Int) (hst : buildKey db w = (K, db))
    (h1 : 0 ≤ ts - s) (h2 : ts - s < 10) :
    ingest ⟨db, some ⟨s, e, K⟩, 10⟩ ⟨ts, .active w⟩ =
      ⟨db, some ⟨s, ts, K⟩, 10⟩ := by
  have h0 : ingest ⟨db, some ⟨s, e, K⟩, 10⟩ ⟨ts, .active w⟩ =
      ingestCore ⟨(buildKey db w).2, some ⟨s, e, K⟩, 10⟩ ts
        (buildKey db w).1 ts := rfl
  rw [h0, hst]
  have hsat : i64SatSub ts s = ts - s :=
    i64SatSub_eq ts s (ts - s) rfl (by unfold minI64; omega)
      (by unfold maxI64; omega)
  have hrot : ¬(((⟨(K, db).2, some ⟨s, e, K⟩, 10⟩ : Recorder)).rotate_every_secs > 0 ∧
      ((⟨(K, db).2, some ⟨s, e, K⟩, 10⟩ : Recorder)).rotate_every_secs ≤
        i64SatSub ts ((⟨s, e, K⟩ : OpenSegment)).start_ts) := by
    show ¬((10 : Int) > 0 ∧ (10 : Int) ≤ i64SatSub ts s)
    rw [hsat]
    omega
  rw [ingestCore_same_noRotate ts (K, db).1 ts rfl rfl hrot]

/-- Same-key `Active` sample at or past the rotation threshold: flush the
extended segment and reopen `[ts, ts]`. -/
theorem run_rotate (db : Database) (s e : Int) (K : SegmentKey)
    (w : ActiveWindow) (ts : Int) (hst : buildKey db w = (K, db))
    (h1 : 10 ≤ ts - s) (h2 : ts - s ≤ maxI64) :
    ingest ⟨db, some ⟨s, e, K⟩, 10⟩ ⟨ts, .active w⟩ =
      ⟨{ db with segments := db.segments ++ [segmentRowOf ⟨s, ts, K⟩] },
        some ⟨ts, ts, K⟩, 10⟩ := by
  have h0 : ingest ⟨db, some ⟨s, e, K⟩, 10⟩ ⟨ts, .active w⟩ =
      ingestCore ⟨(buildKey db w).2, some ⟨s, e, K⟩, 10⟩ ts
        (buildKey db w).1 ts := rfl
  rw [h0, hst]
  have hsat : i64SatSub ts s = ts - s :=
    i64SatSub_eq ts s (ts - s) rfl (by unfold minI64; omega) h2
  have hrot : ((⟨(K, db).2, some ⟨s, e, K⟩, 10⟩ : Recorder)).rotate_every_secs > 0 ∧
      ((⟨(K, db).2, some ⟨s, e, K⟩, 10⟩ : Recorder)).rotate_every_secs ≤
        i64SatSub ts ((⟨s, e, K⟩ : OpenSegment)).start_ts := by
    show (10 : Int) > 0 ∧ (10 : Int) ≤ i64SatSub ts s
    rw [hsat]
    omega
  rw [ingestCore_same_rotate ts (K, db).1 ts rfl rfl hrot]
  simp only [flushSegment, insertSegment, insertRow, segmentRowOf]
  rw [if_neg (by omega)]

/-- Effect of `flush_and_close` on an open segment strictly older than `now`. -/
theorem run_close (db : Database) (s e : Int) (K : SegmentKey) (R now : Int)
    (h1 : e < now) (h2 : s < now) :
    flushAndClose ⟨db, some ⟨s, e, K⟩, R⟩ now =
      ⟨{ db with segments := db.segments ++ [segmentRowOf ⟨s, now, K⟩] },
        none, R⟩ := by
  have h0 : flushAndClose ⟨db, some ⟨s, e, K⟩, R⟩ now =
      ⟨flushSegment db (if now > e then ⟨s, now, K⟩ else ⟨s, e, K⟩),
        none, R⟩ := rfl
  rw [h0, if_pos (show now > e from h1)]
  simp only [flushSegment, insertSegment, insertRow, segmentRowOf]
  rw [if_neg (by omega)]

/-- Twenty-five samples of the same window, once per second from `t0`. -/
def rotationTrace (t0 : Int) (w : ActiveWindow) : List ActivitySample :=
  [⟨t0, .active w⟩, ⟨t0 + 1, .active w⟩, ⟨t0 + 2, .active w⟩,
   ⟨t0 + 3, .active w⟩, ⟨t0 + 4, .active w⟩, ⟨t0 + 5, .active w⟩,
   ⟨t0 + 6, .active w⟩, ⟨t0 + 7, .active w⟩, ⟨t0 + 8, .active w⟩,
   ⟨t0 + 9, .active w⟩, ⟨t0 + 10, .active w⟩, ⟨t0 + 11, .active w⟩,
   ⟨t0 + 12, .active w⟩, ⟨t0 + 13, .active w⟩, ⟨t0 + 14, .active w⟩,
   ⟨t0 + 15, .active w⟩, ⟨t0 + 16, .active w⟩, ⟨t0 + 17, .active w⟩,
   ⟨t0 + 18, .active w⟩, ⟨t0 + 19, .active w⟩, ⟨t0 + 20, .active w⟩,
   ⟨t0 + 21, .active w⟩, ⟨t0 + 22, .active w⟩, ⟨t0 + 23, .active w⟩,
   ⟨t0 + 24, .active w⟩]

/-- Ingesting `rotationTrace` into a fresh recorder with
`rotate_every_secs = 10` and closing at shutdown time `t0 + 25`. -/
def rotationRun (t0 : Int) (w : ActiveWindow) : Recorder :=
  flushAndClose (ingestAll ⟨emptyDb, none, 10⟩ (rotationTrace t0 w)) (t0 + 25)

theorem rotation_chain (db1 : Database) (K : SegmentKey) (w : ActiveWindow)
    (t0 : Int) (hst : buildKey db1 w = (K, db1)) (hseg : db1.segments = []) :
    flushAndClose
      (ingestAll ⟨db1, some ⟨t0, t0, K⟩, 10⟩
        [⟨t0 + 1, .active w⟩, ⟨t0 + 2, .active w⟩, ⟨t0 + 3, .active w⟩,
         ⟨t0 + 4, .active w⟩, ⟨t0 + 5, .active w⟩, ⟨t0 + 6, .active w⟩,
         ⟨t0 + 7, .active w⟩, ⟨t0 + 8, .active w⟩, ⟨t0 + 9, .active w⟩,
         ⟨t0 + 10, .active w⟩, ⟨t0 + 11, .active w⟩, ⟨t0 + 12, .active w⟩,
         ⟨t0 + 13, .active w⟩, ⟨t0 + 14, .active w⟩, ⟨t0 + 15, .active w⟩,
         ⟨t0 + 16, .active w⟩, ⟨t0 + 17, .active w⟩, ⟨t0 + 18, .active w⟩,
         ⟨t0 + 19, .active w⟩, ⟨t0 + 20, .active w⟩, ⟨t0 + 21, .active w⟩,
         ⟨t0 + 22, .active w⟩, ⟨t0 + 23, .active w⟩, ⟨t0 + 24, .active w⟩])
      (t0 + 25) =
    ⟨{ db1 with segments :=
        [segmentRowOf ⟨t0, t0 + 10, K⟩, segmentRowOf ⟨t0 + 10, t0 + 20, K⟩,
         segmentRowOf ⟨t0 + 20, t0 + 25, K⟩] }, none, 10⟩ := by
  unfold ingestAll
  simp only [List.foldl_cons, List.foldl_nil]
  rw [run_extend db1 t0 t0 K w (t0 + 1) hst (by omega) (by omega)]
  rw [run_extend db1 t0 (t0 + 1) K w (t0 + 2) hst (by omega) (by omega)]
  rw [run_extend db1 t0 (t0 + 2) K w (t0 + 3) hst (by omega) (by omega)]
  rw [run_extend db1 t0 (t0 + 3) K w (t0 + 4) hst (by omega) (by omega)]
  rw [run_extend db1 t0 (t0 + 4) K w (t0 + 5) hst (by omega) (by omega)]
  rw [run_extend db1 t0 (t0 + 5) K w (t0 + 6) hst (by omega) (by omega)]
  rw [run_extend db1 t0 (t0 + 6) K w (t0 + 7) hst (by omega) (by omega)]
  rw [run_extend db1 t0 (t0 + 7) K w (t0 + 8) hst (by omega) (by omega)]
  rw [run_extend db1 t0 (t0 + 8) K w (t0 + 9) hst (by omega) (by omega)]
  rw [run_rotate db1 t0 (t0 + 9) K w (t0 + 10) hst (by omega)
    (by unfold maxI64; omega)]
  rw [hseg]
  simp only [List.nil_append]
  set D2 : Database :=
    { db1 with segments := [segmentRowOf ⟨t0, t0 + 10, K⟩] } with hD2
  have hst2 : buildKey D2 w = (K, D2) := by
    rw [hD2]
    exact buildKey_stable_segments db1 w K _ hst
  rw [run_extend D2 (t0 + 10) (t0 + 10) K w (t0 + 11) hst2 (by omega) (by omega)]
  rw [run_extend D2 (t0 + 10) (t0 + 11) K w (t0 + 12) hst2 (by omega) (by omega)]
  rw [run_extend D2 (t0 + 10) (t0 + 12) K w (t0 + 13) hst2 (by omega) (by omega)]
  rw [run_extend D2 (t0 + 10) (t0 + 13) K w (t0 + 14) hst2 (by omega) (by omega)]
  rw [run_extend D2 (t0 + 10) (t0 + 14) K w (t0 + 15) hst2 (by omega) (by omega)]
  rw [run_extend D2 (t0 + 10) (t0 + 15) K w (t0 + 16) hst2 (by omega) (by omega)]
  rw [run_extend D2 (t0 + 10) (t0 + 16) K w (t0 + 17) hst2 (by omega) (by omega)]
  rw [run_extend D2 (t0 + 10) (t0 + 17) K w (t0 + 18) hst2 (by omega) (by omega)]
  rw [run_extend D2 (t0 + 10) (t0 + 18) K w (t0 + 19) hst2 (by omega) (by omega)]
  rw [run_rotate D2 (t0 + 10) (t0 + 19) K w (t0 + 20) hst2 (by omega)
    (by unfold maxI64; omega)]
  have hD2seg : D2.segments = [segmentRowOf ⟨t0, t0 + 10, K⟩] := by rw [hD2]
  rw [hD2seg]
  simp only [List.cons_append, List.nil_append]
  set D3 : Database :=
    { D2 with segments :=
        [segmentRowOf ⟨t0, t0 + 10, K⟩,
         segmentRowOf ⟨t0 + 10, t0 + 20, K⟩] } with hD3
  have hst3 : buildKey D3 w = (K, D3) := by
    rw [hD3]
    exact buildKey_stable_segments D2 w K _ hst2
  rw [run_extend D3 (t0 + 20) (t0 + 20) K w (t0 + 21) hst3 (by omega) (by omega)]
  rw [run_extend D3 (t0 + 20) (t0 + 21) K w (t0 + 22) hst3 (by omega) (by omega)]
  rw [run_extend D3 (t0 + 20) (t0 + 22) K w (t0 + 23) hst3 (by omega) (by omega)]
  rw [run_extend D3 (t0 + 20) (t0 + 23) K w (t0 + 24) hst3 (by omega) (by omega)]
  rw [run_close D3 (t0 + 20) (t0 + 24) K 10 (t0 + 25) (by omega) (by omega)]
  have hD3seg : D3.segments =
      [segmentRowOf ⟨t0, t0 + 10, K⟩, segmentRowOf ⟨t0 + 10, t0 + 20, K⟩] := by
    rw [hD3]
  rw [hD3seg]
  simp only [List.cons_append, List.nil_append]

theorem rotationRun_eq (t0 : Int) (w : ActiveWindow) :
    rotationRun t0 w =
      ⟨{ (buildKey emptyDb w).2 with segments :=
          [segmentRowOf ⟨t0, t0 + 10, (buildKey emptyDb w).1⟩,
           segmentRowOf ⟨t0 + 10, t0 + 20, (buildKey emptyDb w).1⟩,
           segmentRowOf ⟨t0 + 20, t0 + 25, (buildKey emptyDb w).1⟩] },
        none, 10⟩ := by
  have h := rotation_chain (buildKey emptyDb w).2 (buildKey emptyDb w).1 w t0
    (buildKey_stable emptyDb w) (buildKey_segments emptyDb w)
  unfold ingestAll at h
  simp only [List.foldl_cons, List.foldl_nil] at h
  unfold rotationRun rotationTrace ingestAll
  simp only [List.foldl_cons, List.foldl_nil]
  rw [run_first emptyDb w t0 10]
  exact h

/-- C4: with `rotate_every_secs = 10`, ingesting a constant-key sample
stream once per second for 25 seconds starting at `t0` (then closing at
shutdown time `t0 + 25`) flushes exactly the rows `[t0, t0+10)`,
`[t0+10, t0+20)`, `[t0+20, t0+25)` for that key: at least 2 rows, each of
duration at most 10 seconds (the last shorter), covering `[t0, t0+25)`
with no gaps and no overlaps. -/
theorem rotation_bounds_and_coverage (t0 : Int) (w : ActiveWindow) :
    (rotationRun t0 w).db.segments =
      [segmentRowOf ⟨t0, t0 + 10, (buildKey emptyDb w).1⟩,
       segmentRowOf ⟨t0 + 10, t0 + 20, (buildKey emptyDb w).1⟩,
       segmentRowOf ⟨t0 + 20, t0 + 25, (buildKey emptyDb w).1⟩] ∧
    2 ≤ (rotationRun t0 w).db.segments.length ∧
    (∀ r ∈ (rotationRun t0 w).db.segments, r.end_ts - r.start_ts ≤ 10) ∧
    (∀ x : Int, (t0 ≤ x ∧ x < t0 + 25) ↔
      ∃ r ∈ (rotationRun t0 w).db.segments, r.start_ts ≤ x ∧ x < r.end_ts) ∧
    List.Pairwise
      (fun r1 r2 => r1.end_ts ≤ r2.start_ts ∨ r2.end_ts ≤ r1.start_ts)
      (rotationRun t0 w).db.segments := by
  rw [rotationRun_eq]
  refine ⟨rfl, by simp, ?_, ?_, ?_⟩
  · intro r hr
    simp only [List.mem_cons, List.not_mem_nil, or_false] at hr
    rcases hr with rfl | rfl | rfl <;> simp [segmentRowOf]
  · intro x
    simp only [List.mem_cons, List.not_mem_nil, or_false]
    constructor
    · intro hx
      by_cases h10 : x < t0 + 10
      · exact ⟨_, Or.inl rfl, by simp [segmentRowOf]; omega⟩
      · by_cases h20 : x < t0 + 20
        · exact ⟨_, Or.inr (Or.inl rfl), by simp [segmentRowOf]; omega⟩
        · exact ⟨_, Or.inr (Or.inr rfl), by simp [segmentRowOf]; omega⟩
    · rintro ⟨r, rfl | rfl | rfl, hr⟩ <;> simp [segmentRowOf] at hr <;> omega
  · simp [List.pairwise_cons, segmentRowOf]

/-! ### The open-segment overlap invariant -/

/-- All rows have strictly positive duration and end no later than `t`. -/
def SegInv (segs : List SegmentRow) (t : Int) : Prop :=
  ∀ r ∈ segs, r.start_ts < r.end_ts ∧ r.end_ts ≤ t

/-- Recorder invariant after the last ingested sample at time `t`: rows
are well-formed and bounded by `t`, and when an open segment exists it
ends exactly at `t` and every flushed active row ends no later than the
open segment starts. -/
def RecInv (rec : Recorder) (t : Int) : Prop :=
  SegInv rec.db.segments t ∧ minI64 ≤ t ∧
    ∀ c, rec.current = some c →
      c.start_ts ≤ c.end_ts ∧ c.end_ts = t ∧
      ∀ r ∈ rec.db.segments, r.is_idle = false → r.end_ts ≤ c.start_ts

/-- Sample timestamps are bounded below by `t` and non-decreasing. -/
def TsMono : Int → List ActivitySample → Prop
  | _, [] => True
  | t, s :: rest => t ≤ s.ts ∧ TsMono s.ts rest

theorem i64SatSub_le_self (a b : Int) (ha : minI64 ≤ a) (hb : 0 ≤ b) :
    i64SatSub a b ≤ a :=
  max_le (le_trans (min_le_left _ _) (by omega)) ha

theorem SegInv_truncRows {segs : List SegmentRow} {t cutoff ts : Int}
    (h : SegInv segs t) (ht : t ≤ ts) (hc : cutoff ≤ ts) :
    SegInv (truncRows segs cutoff) ts := by
  intro r hr
  rcases mem_truncRows hr with ⟨r₀, hmem, _, htrim | ⟨_, rfl⟩⟩
  · rcases htrim with ⟨_, hlt, _, rfl⟩
    exact ⟨by simpa using hlt, by simpa using hc⟩
  · exact ⟨(h _ hmem).1, le_trans (h _ hmem).2 ht⟩

theorem truncRows_active_bound {segs : List SegmentRow} {cutoff : Int}
    {r : SegmentRow} (hr : r ∈ truncRows segs cutoff)
    (hi : r.is_idle = false) :
    ∃ r₀ ∈ segs, r₀.is_idle = false ∧ r.end_ts ≤ r₀.end_ts ∧
      r.end_ts ≤ cutoff := by
  rcases mem_truncRows hr with ⟨r₀, hmem, hkeep, htrim | ⟨hnt, rfl⟩⟩
  · rcases htrim with ⟨hi₀, _, hcl, rfl⟩
    exact ⟨r₀, hmem, hi₀, by simpa using le_of_lt hcl, by simp⟩
  · have h1 : ¬ cutoff ≤ r.start_ts := fun hcc => hkeep ⟨hi, hcc⟩
    have h2 : ¬ cutoff < r.end_ts := fun hcc => hnt ⟨hi, by omega, hcc⟩
    exact ⟨r, hmem, hi, le_refl _, by omega⟩

/-- One step of the segment bookkeeping preserves the invariant.  The
hypotheses describe exactly what `ingest` establishes before calling the
bookkeeping: rows are valid up to the sample time, the candidate segment
start is no later than the sample time (and equals it for active keys),
and for an idle key every flushed active row has already been truncated to
end no later than the back-dated idle start. -/
theorem RecInv_ingestCore (db1 : Database) (cur : Option OpenSegment)
    (R ts segStart : Int) (key : SegmentKey)
    (hseg : SegInv db1.segments ts)
    (hmin : minI64 ≤ ts)
    (hstart : segStart ≤ ts)
    (hcur : ∀ c, cur = some c → c.start_ts ≤ c.end_ts ∧ c.end_ts ≤ ts ∧
      ∀ r ∈ db1.segments, r.is_idle = false → r.end_ts ≤ c.start_ts)
    (hidle : key.is_idle = true →
      ∀ r ∈ db1.segments, r.is_idle = false → r.end_ts ≤ segStart)
    (hactive : key.is_idle = false → segStart = ts) :
    RecInv (ingestCore ⟨db1, cur, R⟩ ts key segStart) ts := by
  cases cur with
  | none =>
      rw [ingestCore_none ts key segStart rfl]
      unfold RecInv
      refine ⟨hseg, hmin, ?_⟩
      intro c' hc'
      cases hc'
      refine ⟨hstart, rfl, ?_⟩
      intro r hr hi
      cases hkid : key.is_idle with
      | true => exact hidle hkid r hr hi
      | false => exact (hactive hkid) ▸ (hseg r hr).2
  | some c =>
      obtain ⟨hce, hcet, hcrows⟩ := hcur c rfl
      by_cases hk : c.key = key
      · by_cases hrot : (R > 0 ∧ R ≤ i64SatSub ts c.start_ts)
        · rw [ingestCore_same_rotate ts key segStart rfl hk hrot]
          unfold RecInv
          refine ⟨?_, hmin, ?_⟩
          · intro r hrr
            rcases mem_insertRow hrr with hold | ⟨rfl, hpos⟩
            · exact hseg r hold
            · exact ⟨hpos, le_refl ts⟩
          · intro c' hc'
            cases hc'
            refine ⟨le_refl ts, rfl, ?_⟩
            intro r hrr _
            rcases mem_insertRow hrr with hold | ⟨rfl, _⟩
            · exact (hseg r hold).2
            · exact le_refl ts
        · rw [ingestCore_same_noRotate ts key segStart rfl hk hrot]
          unfold RecInv
          refine ⟨hseg, hmin, ?_⟩
          intro c' hc'
          cases hc'
          exact ⟨le_trans hce hcet, rfl, hcrows⟩
      · rw [ingestCore_diff ts key segStart rfl hk]
        by_cases hcl : key.is_idle = true ∧ c.key.is_idle = false
        · rw [if_pos hcl]
          unfold RecInv
          refine ⟨?_, hmin, ?_⟩
          · intro r hrr
            rcases mem_insertRow hrr with hold | ⟨rfl, hpos⟩
            · exact hseg r hold
            · exact ⟨hpos,
                le_trans (le_trans (min_le_left c.end_ts segStart) hcet)
                  (le_refl ts)⟩
          · intro c' hc'
            cases hc'
            refine ⟨hstart, rfl, ?_⟩
            intro r hrr hi
            rcases mem_insertRow hrr with hold | ⟨rfl, _⟩
            · exact hidle hcl.1 r hold hi
            · exact min_le_right c.end_ts segStart
        · rw [if_neg hcl]
          unfold RecInv
          refine ⟨?_, hmin, ?_⟩
          · intro r hrr
            rcases mem_insertRow hrr with hold | ⟨rfl, hpos⟩
            · exact hseg r hold
            · exact ⟨hpos, hcet⟩
          · intro c' hc'
            cases hc'
            refine ⟨hstart, rfl, ?_⟩
            intro r hrr hi
            rcases mem_insertRow hrr with hold | ⟨rfl, _⟩
            · cases hkid : key.is_idle with
              | true => exact hidle hkid r hold hi
              | false => exact (hactive hkid) ▸ (hseg r hold).2
            · cases hkid : key.is_idle with
              | true =>
                  have hck : c.key.is_idle = true := by
                    rcases hcb : c.key.is_idle with _ | _
                    · exact absurd ⟨hkid, hcb⟩ hcl
                    · rfl
                  exact absurd hi (by simp [segmentRowOf, hck])
              | false => exact (hactive hkid) ▸ hcet

/-- Operation `ingest` preserves the invariant for any later sample. -/
theorem RecInv_ingest (rec : Recorder) (s : ActivitySample) (t : Int)
    (hinv : RecInv rec t) (hts : t ≤ s.ts) : RecInv (ingest rec s) s.ts := by
  obtain ⟨hseg, hmin, hcur⟩ := hinv
  obtain ⟨ts, kind⟩ := s
  have hmin' : minI64 ≤ ts := le_trans hmin hts
  cases kind with
  | active w =>
      rw [ingest_active_eq]
      refine RecInv_ingestCore _ _ _ _ _ _ ?_ hmin' (le_refl ts) ?_ ?_ ?_
      · rw [buildKey_segments]
        exact fun r hr => ⟨(hseg r hr).1, le_trans (hseg r hr).2 hts⟩
      · intro c hc
        obtain ⟨h1, h2, h3⟩ := hcur c hc
        refine ⟨h1, le_trans (le_of_eq h2) hts, ?_⟩
        intro r hr hi
        rw [buildKey_segments] at hr
        exact h3 r hr hi
      · intro hkid
        rw [buildKey_is_idle] at hkid
        cases hkid
      · intro _
        rfl
  | idle m =>
      rw [ingest_idle_eq]
      have hcle : i64SatSub ts ((m / 1000 : Nat) : Int) ≤ ts :=
        i64SatSub_le_self ts _ hmin' (Int.natCast_nonneg _)
      refine RecInv_ingestCore _ _ _ _ _ _ ?_ hmin' hcle ?_ ?_ ?_
      · exact SegInv_truncRows hseg hts hcle
      · intro c hc
        obtain ⟨h1, h2, h3⟩ := hcur c hc
        refine ⟨h1, le_trans (le_of_eq h2) hts, ?_⟩
        intro r hr hi
        obtain ⟨r₀, hmem, hi₀, hle, _⟩ := truncRows_active_bound hr hi
        exact le_trans hle (h3 r₀ hmem hi₀)
      · intro _ r hr hi
        obtain ⟨_, _, _, _, hcut⟩ := truncRows_active_bound hr hi
        exact hcut
      · intro hkid
        simp [idleKey] at hkid

/-- The invariant holds after folding `ingest` over any timestamp-monotone
sample stream. -/
theorem RecInv_ingestAll (samples : List ActivitySample) (rec : Recorder)
    (t : Int) (hinv : RecInv rec t) (hm : TsMono t samples) :
    ∃ t', RecInv (ingestAll rec samples) t' := by
  induction samples generalizing rec t with
  | nil => exact ⟨t, hinv⟩
  | cons s rest ih =>
      obtain ⟨hts, hm'⟩ := hm
      exact ih (ingest rec s) s.ts (RecInv_ingest rec s t hinv hts) hm'

/-- C1 (amended): starting from a fresh recorder and empty segments table,
for any sample stream whose timestamps are non-decreasing and within i64
range, the in-memory open segment's `[start_ts, end_ts)` never overlaps
the `[start_ts, end_ts)` of any already-flushed ACTIVE (`is_idle = 0`)
row.  (The original claim — no overlap with ANY flushed row — is refuted
by `open_overlap_idle_counterexample`: a back-dated idle start can reach
into a previously flushed idle row.) -/
theorem open_no_overlap_active_rows (rec : Recorder)
    (samples : List ActivitySample) (h0 : rec.current = none)
    (h1 : rec.db.segments = []) (hm : TsMono minI64 samples) :
    ∀ c r, (ingestAll rec samples).current = some c →
      r ∈ (ingestAll rec samples).db.segments → r.is_idle = false →
      ¬(c.start_ts < r.end_ts ∧ r.start_ts < c.end_ts) := by
  have hinv : RecInv rec minI64 := by
    refine ⟨?_, le_refl _, ?_⟩
    · intro r hr
      rw [h1] at hr
      cases hr
    · intro c hc
      rw [h0] at hc
      cases hc
  obtain ⟨t', hinv'⟩ := RecInv_ingestAll samples rec minI64 hinv hm
  intro c r hc hr hi hcontra
  have hbound := (hinv'.2.2 c hc).2.2 r hr hi
  omega

/-- A concrete active window used by the trace theorems. -/
def wTest : ActiveWindow := ⟨7, some 3, "app.exe", "/bin/app.exe", "Title"⟩

/-- Witness for C1 on a concrete monotone trace: two active samples at
10 and 14, then an idle sample at 20 with `idle_ms = 5000` (cutoff 15);
the flushed active row is `[10, 14)` and the open idle segment is
`[15, 20)`, and they do not overlap. -/
theorem open_no_overlap_witness :
    ¬((⟨15, 20, idleKey⟩ : OpenSegment).start_ts <
        (⟨10, 14, some 1, some 1, false, some 7, some 3⟩ :
          SegmentRow).end_ts ∧
      (⟨10, 14, some 1, some 1, false, some 7, some 3⟩ :
          SegmentRow).start_ts <
        (⟨15, 20, idleKey⟩ : OpenSegment).end_ts) :=
  open_no_overlap_active_rows ⟨emptyDb, none, 0⟩
    [⟨10, .active wTest⟩, ⟨14, .active wTest⟩, ⟨20, .idle 5000⟩] rfl rfl
    ⟨by decide, by decide, by decide, trivial⟩
    ⟨15, 20, idleKey⟩ ⟨10, 14, some 1, some 1, false, some 7, some 3⟩
    (by decide) (by decide) rfl

/-- C1 counterexample (refuting the claim as stated): on the monotone,
i64-range trace, idle at 25 (`idle_ms=20000`, back-dated start 5), active
at 30 and 35, idle at 40 (`idle_ms=30000`, back-dated start 10), the
recorder ends with the open idle segment `[10, 40)` while the flushed
idle row `[5, 25)` is in the table — and `10 < 25 ∧ 5 < 40`, so the open
segment overlaps an already-flushed row. -/
theorem open_overlap_idle_counterexample :
    (ingestAll ⟨emptyDb, none, 0⟩
      [⟨25, .idle 20000⟩, ⟨30, .active wTest⟩, ⟨35, .active wTest⟩,
       ⟨40, .idle 30000⟩]).current = some ⟨10, 40, idleKey⟩ ∧
    (⟨5, 25, none, none, true, none, none⟩ : SegmentRow) ∈
      (ingestAll ⟨emptyDb, none, 0⟩
        [⟨25, .idle 20000⟩, ⟨30, .active wTest⟩, ⟨35, .active wTest⟩,
         ⟨40, .idle 30000⟩]).db.segments ∧
    ((⟨10, 40, idleKey⟩ : OpenSegment).start_ts <
        (⟨5, 25, none, none, true, none, none⟩ : SegmentRow).end_ts ∧
      (⟨5, 25, none, none, true, none, none⟩ : SegmentRow).start_ts <
        (⟨10, 40, idleKey⟩ : OpenSegment).end_ts) := by
  refine ⟨?_, ?_, ?_⟩ <;> decide

/-- A concrete active `SegmentKey` used by the scenario theorems. -/
def kTest : SegmentKey := ⟨some 1, some 2, false, some 7, some 3⟩


/-- C3: idle back-dating.  Partial overlap: with an active segment
`[100,150)` for key `kTest` (held in memory, and in a second variant
already flushed), ingesting `Idle{idle_ms=20000}` at `ts=170`
(`idle_secs=20`, cutoff `150`) leaves the active row for the key present
with `end_ts = 150 <= 150` (trimmed, not deleted) and opens a new idle
segment with `start_ts = 150`.  Full overlap: with an active segment
`[160,170)` (in-memory variant and flushed variant), an idle sample at
`ts=175` with `idle_secs=20` (cutoff `155`) removes the active row
entirely — no active row for the key remains — and the idle segment opens
at `start_ts = 155`. -/
theorem idle_backdating_scenarios :
    (ingest ⟨emptyDb, some ⟨100, 150, kTest⟩, 0⟩ ⟨170, .idle 20000⟩ =
      ⟨⟨[segmentRowOf ⟨100, 150, kTest⟩], [], [], [], []⟩,
        some ⟨150, 170, idleKey⟩, 0⟩) ∧
    (ingest ⟨⟨[segmentRowOf ⟨100, 150, kTest⟩], [], [], [], []⟩, none, 0⟩
        ⟨170, .idle 20000⟩ =
      ⟨⟨[segmentRowOf ⟨100, 150, kTest⟩], [], [], [], []⟩,
        some ⟨150, 170, idleKey⟩, 0⟩) ∧
    (ingest ⟨emptyDb, some ⟨160, 170, kTest⟩, 0⟩ ⟨175, .idle 20000⟩ =
      ⟨emptyDb, some ⟨155, 175, idleKey⟩, 0⟩) ∧
    (ingest ⟨⟨[segmentRowOf ⟨160, 170, kTest⟩], [], [], [], []⟩, none, 0⟩
        ⟨175, .idle 20000⟩ =
      ⟨emptyDb, some ⟨155, 175, idleKey⟩, 0⟩) := by
  refine ⟨?_, ?_, ?_, ?_⟩ <;> decide

end LimeTrace
